import Mathlib

/-!
Verification of the firestore-admin value codec and query builder
(src/mod.ts of olegkorol/firestore-admin).

The TypeScript source operates on untyped JavaScript values.  We embed the
relevant fragment of the JavaScript value space shallowly: numbers are either
finite rationals or NaN, Date objects carry their ISO string (the result of
toJSON), objects are association lists in insertion order (JavaScript object
keys are unique, and both for-in enumeration and Object.keys follow insertion
order for string keys).
-/

namespace FirestoreAdmin

/-- A JavaScript number: a finite value (modelled as a rational) or NaN. -/
inductive JSNum where
  | fin (q : ℚ)
  | nan
deriving DecidableEq, Repr

/-- The JavaScript values this library manipulates: primitives, Date objects
(carrying their toJSON string), arrays, and plain objects as insertion-ordered
association lists. -/
inductive JSValue where
  | str (s : String)
  | num (n : JSNum)
  | bool (b : Bool)
  | null
  | undef
  | date (iso : String)
  | arr (elems : List JSValue)
  | obj (fields : List (String × JSValue))

/-- Number.isInteger: false on NaN, true exactly on whole finite numbers. -/
def numIsInteger : JSNum → Bool
  | .fin q => q.den == 1
  | .nan => false

/-- isNaN on a number. -/
def numIsNaN : JSNum → Bool
  | .fin _ => false
  | .nan => true

/-- The typeof operator restricted to the values we model. -/
def jsTypeof : JSValue → String
  | .str _ => "string"
  | .num _ => "number"
  | .bool _ => "boolean"
  | .null => "object"
  | .undef => "undefined"
  | .date _ => "object"
  | .arr _ => "object"
  | .obj _ => "object"

/-- JavaScript falsiness: null, undefined, false, 0, NaN and "" are falsy;
every object (including empty arrays and empty objects) is truthy. -/
def jsFalsy : JSValue → Bool
  | .null => true
  | .undef => true
  | .bool b => !b
  | .num (.fin q) => q == 0
  | .num .nan => true
  | .str s => s.isEmpty
  | .date _ => false
  | .arr _ => false
  | .obj _ => false

/-- null and undefined: the values on which property access throws. -/
def isNullish : JSValue → Bool
  | .null => true
  | .undef => true
  | _ => false

/-- First binding of a key in an association list (JavaScript object lookup). -/
def lookupEntry : List (String × JSValue) → String → Option JSValue
  | [], _ => none
  | (k, v) :: rest, key => if k == key then some v else lookupEntry rest key

/-- Property read on an arbitrary value, with undefined (none) for properties
that are absent or for non-object receivers; never throws (receiver known
non-nullish). -/
def propOf : JSValue → String → Option JSValue
  | .obj fs, k => lookupEntry fs k
  | _, _ => none

/-- Runtime errors the embedded code can raise. -/
inductive JSError where
  | typeError
  | stackOverflow
deriving DecidableEq, Repr

/-- Property access v.k as executed by JavaScript: throws TypeError when the
receiver is null or undefined, otherwise yields the property or undefined. -/
def getProp (v : JSValue) (k : String) : Except JSError (Option JSValue) :=
  if isNullish v then .error .typeError else .ok (propOf v k)

/-- Property assignment on an object: an existing key keeps its position and
is overwritten, a fresh key is appended (JavaScript insertion order). -/
def jsSet : List (String × JSValue) → String → JSValue → List (String × JSValue)
  | [], k, v => [(k, v)]
  | (k1, v1) :: rest, k, v =>
    if k1 == k then (k1, v) :: rest else (k1, v1) :: jsSet rest k v

/-- Truthiness of a possibly-undefined value. -/
def jsTruthyOpt : Option JSValue → Bool
  | none => false
  | some v => !jsFalsy v

/-- Falsiness of a possibly-undefined value (undefined is falsy). -/
def jsFalsyOpt : Option JSValue → Bool
  | none => true
  | some v => jsFalsy v

/-- Pair each list element with its decimal index, as string keys. -/
def indexPairs (xs : List JSValue) : List (String × JSValue) :=
  (xs.enum).map fun p => (toString p.1, p.2)

/-- The (key, value) pairs visited by a for-in loop: object entries in
insertion order, array and string indices as decimal keys, nothing for
primitives, Date objects, null and undefined. -/
def jsForIn : JSValue → List (String × JSValue)
  | .obj fs => fs
  | .arr xs => indexPairs xs
  | .str s => indexPairs (s.toList.map fun c => .str (String.mk [c]))
  | _ => []

/-- The six wire tags whose payload documentToJson returns unchanged
(the inner find over the six-element list in src/mod.ts). -/
def isPrimitiveTag (k : String) : Bool :=
  k == "stringValue" || k == "booleanValue" || k == "doubleValue" ||
  k == "integerValue" || k == "timestampValue" || k == "nullValue"

/-- The eight recognized wire tags (the outer find in src/mod.ts). -/
def isWireTag (k : String) : Bool :=
  isPrimitiveTag k || k == "mapValue" || k == "arrayValue"

/-- value.fields or-else empty object: the argument passed to the recursive
mapValue call, i.e. the JavaScript expression value.fields or {}. -/
def fieldsOrEmpty : Option JSValue → JSValue
  | none => .obj []
  | some v => if jsFalsy v then .obj [] else v

mutual

/-- documentToJson from src/mod.ts: falsy input decodes to the empty object,
otherwise the for-in loop over the fields runs.  The fuel counts nested
documentToJson invocations (the JavaScript call stack); running out models
the stack overflow a self-referential input would produce. -/
def documentToJson (fuel : Nat) (fields : JSValue) : Except JSError JSValue :=
  match fuel with
  | 0 => .error .stackOverflow
  | f + 1 =>
    if jsFalsy fields then .ok (.obj []) else docLoop f [] (jsForIn fields)
termination_by (fuel, 0)

/-- The body of documentToJson's for-in loop: a key matching one of the six
primitive tags returns its raw payload at once; mapValue recurses into
value.fields or {}; arrayValue returns [] when value.values is truthy and
otherwise evaluates the optional chain over the absent list (undefined, or a
TypeError when values is falsy but not nullish); any other key decodes the
value into the accumulated result object. -/
def docLoop (fuel : Nat) (result : List (String × JSValue))
    (entries : List (String × JSValue)) : Except JSError JSValue :=
  match entries with
  | [] => .ok (.obj result)
  | (key, value) :: rest =>
    if isPrimitiveTag key then .ok value
    else if key == "mapValue" then
      match getProp value "fields" with
      | .error e => .error e
      | .ok fo => documentToJson fuel (fieldsOrEmpty fo)
    else if key == "arrayValue" then
      match getProp value "values" with
      | .error e => .error e
      | .ok lo =>
        if jsTruthyOpt lo then .ok (.arr [])
        else
          match lo with
          | none => .ok .undef
          | some .null => .ok .undef
          | some .undef => .ok .undef
          | some _ => .error .typeError
    else
      match documentToJson fuel value with
      | .error e => .error e
      | .ok dv => docLoop fuel (jsSet result key dv) rest
termination_by (fuel, entries.length + 1)

end

mutual

/-- One field of jsonToDocument from src/mod.ts: the chosen wire tag and the
transformed payload.  Number.isInteger(NaN) is false, so the NaN check inside
the integerValue branch of the source is unreachable and a NaN always reaches
the doubleValue branch, where it is replaced by 0.00.  null and undefined are
tagged nullValue with their payload left as-is.  The arrayValue branch of the
source encodes each element through jsonToDocument with a single key named
value and extracts .fields.value, which is exactly the single encoded field. -/
def encodeField : JSValue → String × JSValue
  | .str s => ("stringValue", .str s)
  | .num n =>
    if numIsInteger n then ("integerValue", .num n)
    else ("doubleValue", .num (if numIsNaN n then .fin 0 else n))
  | .date iso => ("timestampValue", .str iso)
  | .bool b => ("booleanValue", .bool b)
  | .null => ("nullValue", .null)
  | .undef => ("nullValue", .undef)
  | .arr xs => ("arrayValue", .obj [("values", .arr (encodeElems xs))])
  | .obj fs => ("mapValue", .obj [("fields", .obj (encodeEntries fs))])

/-- Array elements of jsonToDocument, each a single-tag wire value. -/
def encodeElems : List JSValue → List JSValue
  | [] => []
  | v :: rest => .obj [encodeField v] :: encodeElems rest

/-- The fields object built by jsonToDocument: every key of the input is kept
(JavaScript object keys are unique, so plain in-order mapping matches the
source's data.fields[key] assignments). -/
def encodeEntries : List (String × JSValue) → List (String × JSValue)
  | [] => []
  | (k, v) :: rest => (k, .obj [encodeField v]) :: encodeEntries rest

end

/-- jsonToDocument from src/mod.ts: wraps the encoded fields in a document.
Object.keys enumerates the same entries as for-in for the values we model. -/
def jsonToDocument (json : JSValue) : JSValue :=
  .obj [("fields", .obj (encodeEntries (jsForIn json)))]

mutual

/-- encodeValue from src/mod.ts, used for query filter values: strings,
numbers (with the integer/double split and no NaN substitution), booleans,
null (as the NULL_VALUE sentinel string) and arrays are supported; everything
else, including Date objects and plain nested objects, throws an error that
interpolates the runtime typeof string. -/
def encodeValue : JSValue → Except String JSValue
  | .str s => .ok (.obj [("stringValue", .str s)])
  | .num n =>
    if numIsInteger n then .ok (.obj [("integerValue", .num n)])
    else .ok (.obj [("doubleValue", .num n)])
  | .bool b => .ok (.obj [("booleanValue", .bool b)])
  | .null => .ok (.obj [("nullValue", .str "NULL_VALUE")])
  | .arr xs =>
    match encodeValueList xs with
    | .error e => .error e
    | .ok vs => .ok (.obj [("arrayValue", .obj [("values", .arr vs)])])
  | v => .error ("Unsupported value type: " ++ jsTypeof v)

/-- Element-wise encodeValue over an array, propagating the first error
(the thrown exception aborts the enclosing Array.prototype.map). -/
def encodeValueList : List JSValue → Except String (List JSValue)
  | [] => .ok []
  | v :: rest =>
    match encodeValue v with
    | .error e => .error e
    | .ok ev =>
      match encodeValueList rest with
      | .error e => .error e
      | .ok evs => .ok (ev :: evs)

end

/-- The FirestoreOperator enum from src/mod.ts. -/
inductive FirestoreOperator where
  | LESS_THAN
  | LESS_THAN_OR_EQUAL
  | GREATER_THAN
  | GREATER_THAN_OR_EQUAL
  | EQUAL
  | NOT_EQUAL
  | ARRAY_CONTAINS
  | IN
  | ARRAY_CONTAINS_ANY
  | NOT_IN
  | IS_NAN
  | IS_NULL
  | IS_NOT_NAN
  | IS_NOT_NULL
deriving DecidableEq, Repr

/-- The string value of each FirestoreOperator enum member. -/
def operatorName : FirestoreOperator → String
  | .LESS_THAN => "LESS_THAN"
  | .LESS_THAN_OR_EQUAL => "LESS_THAN_OR_EQUAL"
  | .GREATER_THAN => "GREATER_THAN"
  | .GREATER_THAN_OR_EQUAL => "GREATER_THAN_OR_EQUAL"
  | .EQUAL => "EQUAL"
  | .NOT_EQUAL => "NOT_EQUAL"
  | .ARRAY_CONTAINS => "ARRAY_CONTAINS"
  | .IN => "IN"
  | .ARRAY_CONTAINS_ANY => "ARRAY_CONTAINS_ANY"
  | .NOT_IN => "NOT_IN"
  | .IS_NAN => "IS_NAN"
  | .IS_NULL => "IS_NULL"
  | .IS_NOT_NAN => "IS_NOT_NAN"
  | .IS_NOT_NULL => "IS_NOT_NULL"

/-- A fieldFilter leaf of the structured query. -/
structure FieldFilter where
  fieldPath : String
  op : String
  value : JSValue

/-- The compositeFilter node of the structured query. -/
structure CompositeFilter where
  op : String
  filters : List FieldFilter

/-- The options argument of getDocumentsInCollection: the optional where
clause carries the filter triples plus the caller's AND/OR operator choice,
then orderBy (direction optional), limit and offset. -/
structure QueryOptions where
  whereOpt : Option (List (String × FirestoreOperator × JSValue) × Option String)
  orderBy : Option (List (String × Option String))
  limit : Option Int
  offset : Option Int

/-- The structuredQuery request body assembled by getDocumentsInCollection:
the from clause (collectionId with allDescendants), the optional where
composite, the normalized orderBy list, and the optional limit and offset. -/
structure StructuredQuery where
  source : List (String × Bool)
  whereFilter : Option CompositeFilter
  orderBy : Option (List (String × String))
  limit : Option Int
  offset : Option Int

/-- One filter triple turned into a fieldFilter leaf, encoding the comparison
value with encodeValue (whose exception aborts the whole build). -/
def mkFieldFilter (c : String × FirestoreOperator × JSValue) :
    Except String FieldFilter :=
  match encodeValue c.2.2 with
  | .error e => .error e
  | .ok ev => .ok ⟨c.1, operatorName c.2.1, ev⟩

/-- All filter triples turned into leaves, propagating the first error. -/
def mapFilters : List (String × FirestoreOperator × JSValue) →
    Except String (List FieldFilter)
  | [] => .ok []
  | c :: rest =>
    match mkFieldFilter c with
    | .error e => .error e
    | .ok l =>
      match mapFilters rest with
      | .error e => .error e
      | .ok ls => .ok (l :: ls)

/-- The structuredQuery construction of getDocumentsInCollection
(src/mod.ts lines 150-185): from is the collection path with allDescendants
false; when a where clause is given the composite operator is the literal
AND, ignoring the operator the caller supplied; orderBy defaults missing
directions to ASCENDING; limit is wrapped as a value object downstream and
offset passed through. -/
def buildStructuredQuery (path : String) (o : QueryOptions) :
    Except String StructuredQuery :=
  let ob := o.orderBy.map fun l => l.map fun p => (p.1, p.2.getD "ASCENDING")
  match o.whereOpt with
  | none => .ok ⟨[(path, false)], none, ob, o.limit, o.offset⟩
  | some (filters, _callerOp) =>
    match mapFilters filters with
    | .error e => .error e
    | .ok leaves => .ok ⟨[(path, false)], some ⟨"AND", leaves⟩, ob, o.limit, o.offset⟩

/-- Indexing data[0]: array head, object property "0", or first character. -/
def jsIndex0 : JSValue → Option JSValue
  | .arr xs => xs.head?
  | .obj fs => lookupEntry fs "0"
  | .str s => if s.isEmpty then none else some (.str (s.take 1))
  | _ => none

/-- The optional chain data?.error over the parsed query response. -/
def topError (data : JSValue) : Option JSValue :=
  if isNullish data then none else propOf data "error"

/-- The optional chain data?.[0]?.error over the parsed query response. -/
def firstEnvelopeError (data : JSValue) : Option JSValue :=
  match (if isNullish data then none else jsIndex0 data) with
  | none => none
  | some e => if isNullish e then none else propOf e "error"

/-- data.length == 1, throwing on nullish data.  Loose-equality coercions
for a non-numeric length property are elided; a parsed JSON response is an
array, where length is its element count. -/
def jsLengthEqOne (data : JSValue) : Except JSError Bool :=
  if isNullish data then .error .typeError
  else
    .ok (match data with
      | .arr xs => xs.length == 1
      | .str s => s.length == 1
      | .obj fs =>
        match lookupEntry fs "length" with
        | some (.num n) => n == .fin 1
        | _ => false
      | _ => false)

/-- The own enumerable entries taken by an object spread. -/
def jsSpread : JSValue → List (String × JSValue)
  | .obj fs => fs
  | .arr xs => indexPairs xs
  | .str s => indexPairs (s.toList.map fun c => .str (String.mk [c]))
  | _ => []

/-- One query-result envelope turned into a document object
(src/mod.ts lines 210-215): the document id is the last slash-separated
segment of doc.document?.name, defaulting to unknown when the chain is
nullish; the fields are doc.document?.fields or {}, decoded by
documentToJson; the result spreads the decoded object and sets _id. -/
def mapEnvelope (fuel : Nat) (doc : JSValue) : Except JSError JSValue :=
  if isNullish doc then .error .typeError
  else
    let document := propOf doc "document"
    let docIdE : Except JSError String :=
      match document with
      | none => .ok "unknown"
      | some d =>
        if isNullish d then .ok "unknown"
        else
          match propOf d "name" with
          | some (.str s) => .ok ((s.splitOn "/").getLastD "")
          | _ => .error .typeError
    match docIdE with
    | .error e => .error e
    | .ok docId =>
      let documentFields :=
        match document with
        | none => JSValue.obj []
        | some d =>
          if isNullish d then JSValue.obj []
          else
            match propOf d "fields" with
            | none => JSValue.obj []
            | some f => if jsFalsy f then JSValue.obj [] else f
      match documentToJson fuel documentFields with
      | .error e => .error e
      | .ok decoded => .ok (.obj (jsSet (jsSpread decoded) "_id" (.str docId)))

/-- data.map over the envelopes, propagating the first thrown error. -/
def mapEnvelopes (fuel : Nat) : List JSValue → Except JSError (List JSValue)
  | [] => .ok []
  | doc :: rest =>
    match mapEnvelope fuel doc with
    | .error e => .error e
    | .ok r =>
      match mapEnvelopes fuel rest with
      | .error e => .error e
      | .ok rs => .ok (r :: rs)

/-- The nullish-coalescing expression data.error ?? data?.[0]?.error, the
error handed to the error handler when the error branch fires. -/
def errorReported (data : JSValue) : JSValue :=
  match topError data with
  | some v => if isNullish v then (firstEnvelopeError data).getD .undef else v
  | none => ((firstEnvelopeError data).getD .undef)

/-- The response-interpretation tail of getDocumentsInCollection
(src/mod.ts lines 197-215).  The outcome pairs the error passed to the
error handler (none when the handler is not called) with the returned value.
A top-level error or an error on the first envelope reports
data.error or-nullish data[0].error and returns []; a single-envelope
response without a document payload returns []; otherwise every envelope is
mapped to a decoded document; data.map on a non-array throws. -/
def interpretQueryResponse (fuel : Nat) (data : JSValue) :
    Except JSError (Option JSValue × JSValue) :=
  if jsTruthyOpt (topError data) || jsTruthyOpt (firstEnvelopeError data) then
    .ok (some (errorReported data), .arr [])
  else
    match jsLengthEqOne data with
    | .error e => .error e
    | .ok l =>
      match (if l then
          match jsIndex0 data with
          | none => .error .typeError
          | some e =>
            if isNullish e then .error .typeError
            else .ok (jsFalsyOpt (propOf e "document"))
        else .ok false : Except JSError Bool) with
      | .error e => .error e
      | .ok emptyMarker =>
        if emptyMarker then .ok (none, .arr [])
        else
          match data with
          | .arr xs =>
            match mapEnvelopes fuel xs with
            | .error e => .error e
            | .ok results => .ok (none, .arr results)
          | _ => .error .typeError

/-- Wire values and wire documents conforming to the decode grammar: objects
whose mapValue payloads are {} or {fields: document}, whose arrayValue
payloads are {} or {values: array}, and whose other fields (primitive tags
and unrecognized keys alike) hold further conforming values; non-object
inputs are conforming when the for-in loop over them cannot recurse (all of
them except non-empty strings and non-empty arrays). -/
def wfDoc : JSValue → Bool
  | .obj [] => true
  | .obj ((k, v) :: rest) =>
    (if isPrimitiveTag k then true
     else if k == "mapValue" then
       match v with
       | .obj [] => true
       | .obj [(pk, fv)] => pk == "fields" && (jsFalsy fv || wfDoc fv)
       | _ => false
     else if k == "arrayValue" then
       match v with
       | .obj [] => true
       | .obj [(pk, lv)] =>
         pk == "values" && (match lv with | .arr _ => true | _ => false)
       | _ => false
     else wfDoc v) && wfDoc (.obj rest)
  | .arr xs => xs.isEmpty
  | .str s => s.isEmpty
  | _ => true

/-- Fuel sufficient for documentToJson on a conforming input: one call frame
for the input itself plus, per field, the frames its branch consumes. -/
def ddepth : JSValue → Nat
  | .obj [] => 1
  | .obj ((k, v) :: rest) =>
    max (1 + (if isPrimitiveTag k then 0
      else if k == "mapValue" then
        match v with
        | .obj [(_, fv)] => ddepth fv
        | _ => 1
      else if k == "arrayValue" then 0
      else ddepth v))
      (ddepth (.obj rest))
  | _ => 1

/-- Native values whose whole-object encoding decodes back to themselves:
strings, booleans, null, integral numbers, empty arrays, and objects of such
values whose keys are unique and are not wire tags. -/
def roundSafe : JSValue → Bool
  | .str _ => true
  | .bool _ => true
  | .null => true
  | .num n => numIsInteger n
  | .arr xs => xs.isEmpty
  | .obj [] => true
  | .obj ((k, v) :: rest) =>
    !isWireTag k && (rest.all fun p => p.1 != k) && roundSafe v && roundSafe (.obj rest)
  | .undef => false
  | .date _ => false

/-- Fuel sufficient to decode the single-field document holding the encoding
of a native value; two frames per nesting level of the mapValue chain. -/
def rtFuelVal : JSValue → Nat
  | .obj [] => 2
  | .obj ((_, v) :: rest) => max (2 + rtFuelVal v) (rtFuelVal (.obj rest))
  | _ => 1

/-- No NaN number occurs anywhere in the value. -/
def nanFree : JSValue → Bool
  | .num .nan => false
  | .arr [] => true
  | .arr (x :: xs) => nanFree x && nanFree (.arr xs)
  | .obj [] => true
  | .obj ((_, v) :: rest) => nanFree v && nanFree (.obj rest)
  | _ => true

/-! ## Helper lemmas -/

theorem jsTruthyOpt_eq_not_falsy (o : Option JSValue) :
    jsTruthyOpt o = !jsFalsyOpt o := by
  cases o <;> simp [jsTruthyOpt, jsFalsyOpt]

theorem except_isOk_iff {ε α : Type} (x : Except ε α) :
    x.isOk = true ↔ ∃ a, x = .ok a := by
  cases x <;> simp [Except.isOk, Except.toBool]

theorem isWireTag_false_parts {k : String} (h : isWireTag k = false) :
    isPrimitiveTag k = false ∧ (k == "mapValue") = false ∧
      (k == "arrayValue") = false := by
  unfold isWireTag at h
  simp only [Bool.or_eq_false_iff] at h
  exact ⟨h.1.1, h.1.2, h.2⟩

theorem jsSet_fresh_append (acc : List (String × JSValue)) (k : String)
    (v : JSValue) (h : ∀ p ∈ acc, p.1 ≠ k) :
    jsSet acc k v = acc ++ [(k, v)] := by
  induction acc with
  | nil => rfl
  | cons p rest ih =>
    have hp : p.1 ≠ k := h p (by simp)
    obtain ⟨k1, v1⟩ := p
    simp only [jsSet]
    rw [if_neg (by simpa using hp)]
    simp only [List.cons_append, List.cons.injEq, true_and]
    exact ih fun q hq => h q (by simp [hq])

/-- Structural induction on JSValue with pointwise hypotheses for the nested
lists of array elements and object fields. -/
theorem jsvalue_induction (motive : JSValue → Prop)
    (hstr : ∀ s, motive (.str s)) (hnum : ∀ n, motive (.num n))
    (hbool : ∀ b, motive (.bool b)) (hnull : motive .null)
    (hundef : motive .undef) (hdate : ∀ s, motive (.date s))
    (harr : ∀ xs, (∀ x ∈ xs, motive x) → motive (.arr xs))
    (hobj : ∀ fs, (∀ p ∈ fs, motive p.2) → motive (.obj fs)) :
    ∀ v, motive v := by
  have key : ∀ n v, sizeOf (v : JSValue) ≤ n → motive v := by
    intro n
    induction n with
    | zero => intro v hv; cases v <;> simp at hv
    | succ n ih =>
      intro v hv
      cases v with
      | str s => exact hstr s
      | num m => exact hnum m
      | bool b => exact hbool b
      | null => exact hnull
      | undef => exact hundef
      | date s => exact hdate s
      | arr xs =>
        refine harr xs fun x hx => ih x ?_
        have hlt := List.sizeOf_lt_of_mem hx
        simp only [JSValue.arr.sizeOf_spec] at hv
        omega
      | obj fs =>
        refine hobj fs fun p hp => ih p.2 ?_
        have hlt := List.sizeOf_lt_of_mem hp
        have hsnd : sizeOf p.2 < sizeOf p := by
          obtain ⟨a, b⟩ := p
          simp only [Prod.mk.sizeOf_spec]
          omega
        simp only [JSValue.obj.sizeOf_spec] at hv
        omega
  exact fun v => key (sizeOf v) v le_rfl

/-! ## Claim C2: arrayValue decoding -/

/-- Claim C2 counterexample: a wire value tagged arrayValue with a populated
values list decodes to the empty array (the elements are not decoded), and a
wire value tagged arrayValue whose values key is absent decodes to undefined,
not to an empty sequence; both contradict the claimed behavior. -/
theorem claim2_array_decode_counterexample :
    documentToJson 3 (.obj [("arrayValue",
        .obj [("values", .arr [.obj [("integerValue", .num (.fin 1))]])])]) =
      .ok (.arr []) ∧
    JSValue.arr [] ≠ JSValue.arr [.num (.fin 1)] ∧
    documentToJson 3 (.obj [("arrayValue", .obj [])]) = .ok .undef ∧
    JSValue.undef ≠ JSValue.arr [] := by
  refine ⟨?_, ?_, ?_, ?_⟩ <;>
    simp [documentToJson, docLoop, jsFalsy, jsForIn, isPrimitiveTag, getProp,
      isNullish, propOf, lookupEntry, jsTruthyOpt]

/-- Claim C2 amended: decoding a wire value tagged arrayValue returns the
empty array whenever the values property is present and truthy, discarding
the elements, and returns undefined when the values property is absent. -/
theorem claim2_array_decode_amended : ∀ fuel payload,
    (∀ lv, propOf payload "values" = some lv → jsFalsy lv = false →
      documentToJson (fuel + 1) (.obj [("arrayValue", payload)]) = .ok (.arr [])) ∧
    (isNullish payload = false → propOf payload "values" = none →
      documentToJson (fuel + 1) (.obj [("arrayValue", payload)]) = .ok .undef) := by
  intro fuel payload
  constructor
  · intro lv hl hf
    have hobj : isNullish payload = false := by
      cases payload <;> first | rfl | simp [propOf] at hl
    have htruthy : jsTruthyOpt (some lv) = true := by
      simp [jsTruthyOpt, hf]
    simp [documentToJson, docLoop, jsFalsy, jsForIn, isPrimitiveTag, getProp,
      hobj, hl, htruthy]
  · intro hn hl
    simp [documentToJson, docLoop, jsFalsy, jsForIn, isPrimitiveTag, getProp,
      hn, hl, jsTruthyOpt]

/-- Claim C2 witness: the amended theorem applied at a populated values list
and at a payload without values. -/
theorem claim2_array_decode_witness :
    documentToJson 3 (.obj [("arrayValue",
        .obj [("values", .arr [.obj [("stringValue", .str "x")]])])]) =
      .ok (.arr []) ∧
    documentToJson 3 (.obj [("arrayValue", .obj [("other", .str "y")])]) =
      .ok .undef := by
  constructor
  · exact (claim2_array_decode_amended 2 _).1
      (.arr [.obj [("stringValue", .str "x")]])
      (by simp [propOf, lookupEntry]) rfl
  · exact (claim2_array_decode_amended 2 _).2 rfl
      (by simp [propOf, lookupEntry])

/-! ## Claim C6: encodeValue on timestamps and nested objects -/

/-- Claim C6: contrary to the claim, the single-value encoder encodeValue has
no timestamp and no map branch: a Date filter value (as documented in the
README timestamp-filter examples) and a nested object both throw the
unsupported-type error carrying typeof, which is object for both. -/
theorem claim6_encodeValue_rejects_timestamp_and_map :
    encodeValue (.date "2024-12-02T00:00:00.000Z") =
      .error "Unsupported value type: object" ∧
    encodeValue (.obj [("city", .str "Moscow")]) =
      .error "Unsupported value type: object" := by
  constructor <;> simp [encodeValue, jsTypeof]

/-! ## Claim C7: encoding of null -/

/-- Claim C7 counterexample: the whole-object encoder jsonToDocument tags a
null field with nullValue but keeps the raw null as payload; it does not
produce the NULL_VALUE sentinel string the claim asserts for both encoders. -/
theorem claim7_null_encoding_counterexample :
    jsonToDocument (.obj [("a", JSValue.null)]) =
      .obj [("fields", .obj [("a", .obj [("nullValue", JSValue.null)])])] ∧
    JSValue.null ≠ JSValue.str "NULL_VALUE" := by
  constructor
  · simp [jsonToDocument, jsForIn, encodeEntries, encodeField]
  · simp

/-- Claim C7 amended: only the single-value encoder encodeValue produces the
NULL_VALUE sentinel; jsonToDocument tags null and undefined fields with
nullValue while passing the raw payload through. -/
theorem claim7_null_encoding_amended :
    encodeValue JSValue.null = .ok (.obj [("nullValue", .str "NULL_VALUE")]) ∧
    encodeField JSValue.null = ("nullValue", JSValue.null) ∧
    encodeField JSValue.undef = ("nullValue", JSValue.undef) := by
  refine ⟨?_, ?_, ?_⟩ <;> simp [encodeValue, encodeField]

/-! ## Claim C1: round trip (counterexample part) -/

/-- Claim C1 counterexample: a native object holding a non-empty array does
not round trip; decoding its encoding yields the object with an empty array
in place of the original elements. -/
theorem claim1_roundtrip_counterexample :
    documentToJson 5 (.obj (encodeEntries [("a", .arr [.num (.fin 1)])])) =
      .ok (.obj [("a", .arr [])]) ∧
    JSValue.obj [("a", .arr [])] ≠ .obj [("a", .arr [.num (.fin 1)])] := by
  constructor
  · simp [encodeEntries, encodeField, encodeElems, documentToJson, docLoop,
      jsFalsy, jsForIn, isPrimitiveTag, isWireTag, getProp, isNullish, propOf,
      lookupEntry, jsTruthyOpt, jsSet]
  · simp

/-! ## Claim C5: exclusion of documentless envelopes (counterexample part) -/

/-- Claim C5 counterexample: a response of two envelopes both carrying only a
read-timestamp marker is not excluded; each produces a placeholder row with
the unknown id, so the call does not return an empty sequence. -/
theorem claim5_empty_envelopes_counterexample :
    interpretQueryResponse 5
        (.arr [.obj [("readTime", .str "t")], .obj [("readTime", .str "t")]]) =
      .ok (none, .arr [.obj [("_id", .str "unknown")],
        .obj [("_id", .str "unknown")]]) ∧
    JSValue.arr [.obj [("_id", .str "unknown")], .obj [("_id", .str "unknown")]] ≠
      JSValue.arr [] := by
  constructor
  · simp [interpretQueryResponse, topError, firstEnvelopeError, jsIndex0,
      isNullish, propOf, lookupEntry, jsTruthyOpt, jsLengthEqOne, mapEnvelopes,
      mapEnvelope, jsFalsy, documentToJson, docLoop, jsForIn, jsSpread, jsSet,
      jsFalsyOpt]
  · simp

/-- Claim C5 amended: only a response consisting of exactly one envelope
without a (truthy) document payload is turned into the empty sequence; the
single-envelope case behaves as the claim describes. -/
theorem claim5_empty_envelopes_amended : ∀ fuel fs,
    jsFalsyOpt (lookupEntry fs "error") = true →
    jsFalsyOpt (lookupEntry fs "document") = true →
    interpretQueryResponse fuel (.arr [.obj fs]) = .ok (none, .arr []) := by
  intro fuel fs he hd
  have h1 : topError (.arr [.obj fs]) = none := rfl
  have h2 : firstEnvelopeError (.arr [.obj fs]) = lookupEntry fs "error" := rfl
  have h3 : jsTruthyOpt (lookupEntry fs "error") = false := by
    rw [jsTruthyOpt_eq_not_falsy, he]
    rfl
  have h4 : jsLengthEqOne (.arr [.obj fs]) = .ok true := rfl
  have h0 : jsTruthyOpt (none : Option JSValue) = false := rfl
  have h6 : isNullish (JSValue.obj fs) = false := rfl
  simp [interpretQueryResponse, h1, h2, h0, h3, h4, jsIndex0, h6, propOf, hd]

/-- Claim C5 witness: the amended theorem applied to the single
read-timestamp envelope of the spec's example. -/
theorem claim5_empty_envelopes_witness :
    interpretQueryResponse 4 (.arr [.obj [("readTime", .str "2024-01-01")]]) =
      .ok (none, .arr []) :=
  claim5_empty_envelopes_amended 4 [("readTime", .str "2024-01-01")]
    (by simp [lookupEntry, jsFalsyOpt]) (by simp [lookupEntry, jsFalsyOpt])

/-! ## Claim C8: error envelopes short-circuit to an empty sequence -/

/-- Claim C8: a truthy top-level error or a truthy error on the first
envelope makes interpretation report the error through the error handler
(no exception is thrown) and return the empty sequence. -/
theorem claim8_error_short_circuit : ∀ fuel data,
    jsTruthyOpt (topError data) = true ∨
      jsTruthyOpt (firstEnvelopeError data) = true →
    interpretQueryResponse fuel data =
      .ok (some (errorReported data), .arr []) := by
  intro fuel data h
  have hc : (jsTruthyOpt (topError data) ||
      jsTruthyOpt (firstEnvelopeError data)) = true := by
    rcases h with h | h <;> simp [h]
  simp only [interpretQueryResponse, hc, if_true]

/-- Claim C8 witness: a response whose first envelope carries an error
object, as in the spec's example; the envelope's error object itself is what
gets reported. -/
theorem claim8_error_short_circuit_witness :
    interpretQueryResponse 4
        (.arr [.obj [("error", .obj [("code", .num (.fin 7))])]]) =
      .ok (some (errorReported
        (.arr [.obj [("error", .obj [("code", .num (.fin 7))])]])), .arr []) ∧
    errorReported (.arr [.obj [("error", .obj [("code", .num (.fin 7))])]]) =
      .obj [("code", .num (.fin 7))] :=
  ⟨claim8_error_short_circuit 4 _ (Or.inr (by
    simp [firstEnvelopeError, jsIndex0, isNullish, propOf, lookupEntry,
      jsTruthyOpt, jsFalsy])),
   by simp [errorReported, topError, firstEnvelopeError, jsIndex0, isNullish,
      propOf, lookupEntry]⟩

/-! ## Claim C4: the composite filter -/

theorem mkFieldFilter_ok (c : String × FirestoreOperator × JSValue)
    (l : FieldFilter) (h : mkFieldFilter c = .ok l) :
    l.fieldPath = c.1 ∧ l.op = operatorName c.2.1 ∧
      encodeValue c.2.2 = .ok l.value := by
  unfold mkFieldFilter at h
  cases hev : encodeValue c.2.2 with
  | error e => rw [hev] at h; simp at h
  | ok ev =>
    rw [hev] at h
    injection h with h
    subst h
    exact ⟨rfl, rfl, rfl⟩

theorem mapFilters_ok_forall2 : ∀ cs ls, mapFilters cs = .ok ls →
    List.Forall₂ (fun c l => l.fieldPath = c.1 ∧ l.op = operatorName c.2.1 ∧
      encodeValue c.2.2 = .ok l.value) cs ls := by
  intro cs
  induction cs with
  | nil =>
    intro ls h
    unfold mapFilters at h
    injection h with h
    subst h
    exact .nil
  | cons c rest ih =>
    intro ls h
    unfold mapFilters at h
    cases hm : mkFieldFilter c with
    | error e => rw [hm] at h; simp at h
    | ok l =>
      rw [hm] at h
      cases hr : mapFilters rest with
      | error e => rw [hr] at h; simp at h
      | ok ls2 =>
        rw [hr] at h
        injection h with h
        subst h
        exact .cons (mkFieldFilter_ok c l hm) (ih ls2 hr)

/-- Claim C4: with a non-empty filter list the built query carries a
composite filter whose operator is the literal AND whatever operator option
the caller passed, and whose leaves correspond one to one to the filter
clauses, each comparing the clause's field path under the clause's operator
name against the encoded comparison value. -/
theorem claim4_composite_and : ∀ path filters copOpt ob lim off q leaves,
    filters ≠ [] →
    mapFilters filters = .ok leaves →
    buildStructuredQuery path ⟨some (filters, copOpt), ob, lim, off⟩ = .ok q →
    q.whereFilter = some ⟨"AND", leaves⟩ ∧
      List.Forall₂ (fun c l => l.fieldPath = c.1 ∧ l.op = operatorName c.2.1 ∧
        encodeValue c.2.2 = .ok l.value) filters leaves := by
  intro path filters copOpt ob lim off q leaves hne hm hq
  unfold buildStructuredQuery at hq
  simp only at hq
  rw [hm] at hq
  injection hq with hq
  subst hq
  exact ⟨rfl, mapFilters_ok_forall2 filters leaves hm⟩

/-- Claim C4 witness: the spec's example query, with the caller even asking
for OR composition, still yields an AND composite with one GREATER_THAN leaf
on age against the encoded integer 20. -/
theorem claim4_composite_and_witness :
    (StructuredQuery.mk [("c", false)]
        (some ⟨"AND", [⟨"age", "GREATER_THAN",
          .obj [("integerValue", .num (.fin 20))]⟩]⟩) none none none).whereFilter =
      some ⟨"AND", [⟨"age", "GREATER_THAN",
        .obj [("integerValue", .num (.fin 20))]⟩]⟩ ∧
      List.Forall₂ (fun (c : String × FirestoreOperator × JSValue)
          (l : FieldFilter) => l.fieldPath = c.1 ∧ l.op = operatorName c.2.1 ∧
        encodeValue c.2.2 = .ok l.value)
        [("age", FirestoreOperator.GREATER_THAN, JSValue.num (.fin 20))]
        [⟨"age", "GREATER_THAN", .obj [("integerValue", .num (.fin 20))]⟩] :=
  claim4_composite_and "c" [("age", .GREATER_THAN, .num (.fin 20))] (some "OR")
    none none none _ _ (by simp)
    (by simp [mapFilters, mkFieldFilter, encodeValue, numIsInteger,
      operatorName])
    (by simp [buildStructuredQuery, mapFilters, mkFieldFilter, encodeValue,
      numIsInteger, operatorName])

/-! ## Claim C10: tag-named fields shadow the whole document -/

theorem docLoop_tag_head (fuel : Nat) (acc acc2 : List (String × JSValue))
    (k : String) (v : JSValue) (rest rest2 : List (String × JSValue))
    (hk : isWireTag k = true) :
    docLoop fuel acc ((k, v) :: rest) = docLoop fuel acc2 ((k, v) :: rest2) := by
  unfold isWireTag at hk
  by_cases hp : isPrimitiveTag k
  · simp [docLoop, hp]
  · simp only [hp, Bool.false_or, Bool.or_eq_true, beq_iff_eq] at hk
    rcases hk with hk | hk <;> subst hk <;> simp [docLoop, isPrimitiveTag]

theorem docLoop_skip (fuel : Nat) :
    ∀ (pre : List (String × JSValue)) (acc tail : List (String × JSValue)),
    (∀ p ∈ pre, isWireTag p.1 = false) →
    (∀ p ∈ pre, (documentToJson fuel p.2).isOk = true) →
    ∃ acc2, docLoop fuel acc (pre ++ tail) = docLoop fuel acc2 tail := by
  intro pre
  induction pre with
  | nil =>
    intro acc tail _ _
    exact ⟨acc, rfl⟩
  | cons p pre ih =>
    intro acc tail htag hok
    obtain ⟨k, v⟩ := p
    have hkt := htag (k, v) (by simp)
    obtain ⟨hp, hm, ha⟩ := isWireTag_false_parts hkt
    have hvo := hok (k, v) (by simp)
    obtain ⟨dv, hdv⟩ := (except_isOk_iff _).mp hvo
    have step : docLoop fuel acc (((k, v) :: pre) ++ tail) =
        docLoop fuel (jsSet acc k dv) (pre ++ tail) := by
      simp [docLoop, hp, hm, ha, hdv]
    rw [step]
    exact ih (jsSet acc k dv) tail (fun q hq => htag q (by simp [hq]))
      (fun q hq => hok q (by simp [hq]))

/-- Claim C10: when a wire document contains a field named after one of the
eight recognized tags (and the fields before it are ordinary decodable
fields), decodeDocument returns exactly what it would return for the
single-field document made of that tag field: every other field is
discarded, and for a primitive tag the result is the raw payload. -/
theorem claim10_tag_field_shadows : ∀ fuel pre k v rest,
    (∀ p ∈ pre, isWireTag p.1 = false) →
    (∀ p ∈ pre, (documentToJson fuel p.2).isOk = true) →
    isWireTag k = true →
    documentToJson (fuel + 1) (.obj (pre ++ (k, v) :: rest)) =
      documentToJson (fuel + 1) (.obj [(k, v)]) ∧
    (isPrimitiveTag k = true →
      documentToJson (fuel + 1) (.obj [(k, v)]) = .ok v) := by
  intro fuel pre k v rest htag hok hk
  constructor
  · have h1 : documentToJson (fuel + 1) (.obj (pre ++ (k, v) :: rest)) =
        docLoop fuel [] (pre ++ (k, v) :: rest) := by
      simp [documentToJson, jsFalsy, jsForIn]
    have h2 : documentToJson (fuel + 1) (.obj [(k, v)]) =
        docLoop fuel [] [(k, v)] := by
      simp [documentToJson, jsFalsy, jsForIn]
    rw [h1, h2]
    obtain ⟨acc2, hskip⟩ := docLoop_skip fuel pre [] ((k, v) :: rest) htag hok
    rw [hskip]
    exact docLoop_tag_head fuel acc2 [] k v rest [] hk
  · intro hp
    simp [documentToJson, jsFalsy, jsForIn, docLoop, hp]

/-- Claim C10 witness: a document with a user field before and after a field
named stringValue decodes exactly as the bare stringValue wire value, namely
to its raw payload. -/
theorem claim10_tag_field_shadows_witness :
    documentToJson 3 (.obj ([("a", .obj [("integerValue", .num (.fin 7))])] ++
        ("stringValue", .str "S") :: [("b", .obj [("booleanValue", .bool true)])])) =
      documentToJson 3 (.obj [("stringValue", .str "S")]) ∧
    documentToJson 3 (.obj [("stringValue", JSValue.str "S")]) = .ok (.str "S") := by
  have h := claim10_tag_field_shadows 2
    [("a", .obj [("integerValue", .num (.fin 7))])]
    "stringValue" (.str "S") [("b", .obj [("booleanValue", .bool true)])]
    (by
      intro p hp
      simp only [List.mem_singleton] at hp
      subst hp
      rfl)
    (by
      intro p hp
      simp only [List.mem_singleton] at hp
      subst hp
      simp [documentToJson, docLoop, jsFalsy, jsForIn, isPrimitiveTag,
        Except.isOk, Except.toBool])
    rfl
  exact ⟨h.1, h.2 rfl⟩

/-! ## Claim C3: NaN substitution in whole-object encoding -/

theorem nanFree_pair (a : String) (b : JSValue) (h : nanFree b = true) :
    nanFree (.obj [(a, b)]) = true := by
  simp [nanFree, h]

theorem nanFree_encodeElems : ∀ xs : List JSValue,
    (∀ x ∈ xs, nanFree (encodeField x).2 = true) →
    nanFree (.arr (encodeElems xs)) = true := by
  intro xs
  induction xs with
  | nil =>
    intro _
    simp [encodeElems, nanFree]
  | cons x rest ih =>
    intro hall
    have hx : nanFree (encodeField x).2 = true := hall x (by simp)
    have hpair : nanFree (.obj [encodeField x]) = true := by
      rcases hef : encodeField x with ⟨t, p⟩
      rw [hef] at hx
      exact nanFree_pair t p hx
    simp only [encodeElems]
    simp [nanFree, hpair, ih fun q hq => hall q (by simp [hq])]

theorem nanFree_encodeEntries : ∀ fs : List (String × JSValue),
    (∀ p ∈ fs, nanFree (encodeField p.2).2 = true) →
    nanFree (.obj (encodeEntries fs)) = true := by
  intro fs
  induction fs with
  | nil =>
    intro _
    simp [encodeEntries, nanFree]
  | cons q rest ih =>
    intro hall
    obtain ⟨k, v⟩ := q
    have hv : nanFree (encodeField v).2 = true := hall (k, v) (by simp)
    have hpair : nanFree (.obj [encodeField v]) = true := by
      rcases hef : encodeField v with ⟨t, p⟩
      rw [hef] at hv
      exact nanFree_pair t p hv
    simp only [encodeEntries]
    simp [nanFree, hpair, ih fun r hr => hall r (by simp [hr])]

theorem nanFree_encodeField_snd : ∀ v, nanFree (encodeField v).2 = true := by
  intro v
  induction v using jsvalue_induction with
  | hstr s => simp [encodeField, nanFree]
  | hnum n =>
    cases n with
    | fin q =>
      by_cases hq : numIsInteger (.fin q) <;>
        simp [encodeField, hq, numIsNaN, nanFree]
    | nan => simp [encodeField, numIsInteger, numIsNaN, nanFree]
  | hbool b => simp [encodeField, nanFree]
  | hnull => simp [encodeField, nanFree]
  | hundef => simp [encodeField, nanFree]
  | hdate s => simp [encodeField, nanFree]
  | harr xs ih =>
    have helems := nanFree_encodeElems xs ih
    simp [encodeField, nanFree, helems]
  | hobj fs ih =>
    have hentries := nanFree_encodeEntries fs ih
    simp [encodeField, nanFree, hentries]

/-- Claim C3: a NaN-valued number field is encoded by jsonToDocument as the
wire value doubleValue 0 (Number.isInteger(NaN) is false, so the NaN check
of the integerValue branch is dead code and every NaN takes the double
path), and consequently no NaN payload ever appears in an encoded
document. -/
theorem claim3_nan_substitution :
    (∀ (fs : List (String × JSValue)) (k : String),
      (k, JSValue.num JSNum.nan) ∈ fs →
      (k, JSValue.obj [("doubleValue", JSValue.num (JSNum.fin 0))]) ∈
        encodeEntries fs) ∧
    encodeField (JSValue.num JSNum.nan) =
      ("doubleValue", JSValue.num (JSNum.fin 0)) ∧
    (∀ json, nanFree (jsonToDocument json) = true) := by
  have hnan : encodeField (JSValue.num JSNum.nan) =
      ("doubleValue", JSValue.num (JSNum.fin 0)) := by
    simp [encodeField, numIsInteger, numIsNaN]
  refine ⟨?_, hnan, ?_⟩
  · intro fs k hmem
    induction fs with
    | nil => simp at hmem
    | cons q rest ih =>
      obtain ⟨a, b⟩ := q
      rcases List.mem_cons.mp hmem with heq | hmem2
      · rw [show a = k from (Prod.mk.injEq ..).mp heq.symm |>.1,
          show b = JSValue.num JSNum.nan from (Prod.mk.injEq ..).mp heq.symm |>.2]
        simp [encodeEntries, hnan]
      · simp only [encodeEntries]
        exact List.mem_cons_of_mem _ (ih hmem2)
  · intro json
    have hfields := nanFree_encodeEntries (jsForIn json)
      fun p _ => nanFree_encodeField_snd p.2
    simp [jsonToDocument, nanFree, hfields]

/-- Claim C3 witness: the object with a single NaN field encodes to
doubleValue 0 and its encoded document is NaN-free. -/
theorem claim3_nan_substitution_witness :
    ("a", JSValue.obj [("doubleValue", JSValue.num (JSNum.fin 0))]) ∈
      encodeEntries [("a", JSValue.num JSNum.nan)] ∧
    nanFree (jsonToDocument (.obj [("a", JSValue.num JSNum.nan)])) = true :=
  ⟨claim3_nan_substitution.1 _ "a" (by simp), claim3_nan_substitution.2.2 _⟩

/-! ## Claim C9: totality of decoding -/

theorem ddepth_pos : ∀ v, 1 ≤ ddepth v := by
  intro v
  cases v with
  | obj fs =>
    cases fs with
    | nil => simp [ddepth]
    | cons q rest =>
      obtain ⟨k, w⟩ := q
      unfold ddepth
      omega
  | str s => simp [ddepth]
  | num n => simp [ddepth]
  | bool b => simp [ddepth]
  | null => simp [ddepth]
  | undef => simp [ddepth]
  | date s => simp [ddepth]
  | arr xs => simp [ddepth]

theorem docLoop_wf_ok : ∀ (fs : List (String × JSValue)) (f : Nat)
    (acc : List (String × JSValue)),
    (∀ w, wfDoc w = true → ddepth w ≤ f → (documentToJson f w).isOk = true) →
    wfDoc (.obj fs) = true → ddepth (.obj fs) ≤ f + 1 →
    (docLoop f acc fs).isOk = true := by
  intro fs
  induction fs with
  | nil =>
    intro f acc _ _ _
    simp [docLoop, Except.isOk, Except.toBool]
  | cons q rest ih =>
    intro f acc IH hwf hd
    obtain ⟨k, v⟩ := q
    unfold wfDoc at hwf
    unfold ddepth at hd
    simp only [Bool.and_eq_true] at hwf
    obtain ⟨hhead, htail⟩ := hwf
    have hd1 := le_trans (Nat.le_max_left _ _) hd
    have hd2 : ddepth (.obj rest) ≤ f + 1 := le_trans (Nat.le_max_right _ _) hd
    cases hp : isPrimitiveTag k with
    | true => simp [docLoop, hp, Except.isOk, Except.toBool]
    | false =>
      simp only [hp, Bool.false_eq_true, if_false] at hhead hd1
      cases hm : k == "mapValue" with
      | true =>
        have hk := eq_of_beq hm
        subst hk
        simp only [beq_self_eq_true, if_true] at hhead hd1
        cases v with
        | obj l =>
          cases l with
          | nil =>
            have hstep : docLoop f acc (("mapValue", JSValue.obj []) :: rest) =
                documentToJson f (.obj []) := by
              simp [docLoop, isPrimitiveTag, getProp, isNullish, propOf,
                lookupEntry, fieldsOrEmpty]
            rw [hstep]
            simp only at hd1
            exact IH _ (by simp [wfDoc]) (by simp [ddepth]; omega)
          | cons p l2 =>
            obtain ⟨pk, fv⟩ := p
            cases l2 with
            | nil =>
              simp only [Bool.and_eq_true] at hhead
              obtain ⟨hpk, hfv⟩ := hhead
              have hpk2 := eq_of_beq hpk
              subst hpk2
              have hstep : docLoop f acc
                  (("mapValue", JSValue.obj [("fields", fv)]) :: rest) =
                  documentToJson f (fieldsOrEmpty (some fv)) := by
                simp [docLoop, isPrimitiveTag, getProp, isNullish, propOf,
                  lookupEntry]
              rw [hstep]
              simp only at hd1
              cases hfal : jsFalsy fv with
              | true =>
                rw [show fieldsOrEmpty (some fv) = .obj [] by
                  simp [fieldsOrEmpty, hfal]]
                have hfp := ddepth_pos fv
                exact IH _ (by simp [wfDoc]) (by simp [ddepth]; omega)
              | false =>
                rw [show fieldsOrEmpty (some fv) = fv by
                  simp [fieldsOrEmpty, hfal]]
                rw [hfal] at hfv
                simp only [Bool.false_or] at hfv
                exact IH fv hfv (by omega)
            | cons p2 l3 => simp at hhead
        | str s => simp at hhead
        | num n => simp at hhead
        | bool b => simp at hhead
        | null => simp at hhead
        | undef => simp at hhead
        | date s => simp at hhead
        | arr xs => simp at hhead
      | false =>
        simp only [hm, Bool.false_eq_true, if_false] at hhead hd1
        cases ha : k == "arrayValue" with
        | true =>
          have hk := eq_of_beq ha
          subst hk
          simp only [beq_self_eq_true, if_true] at hhead hd1
          cases v with
          | obj l =>
            cases l with
            | nil =>
              simp [docLoop, isPrimitiveTag, getProp, isNullish, propOf,
                lookupEntry, jsTruthyOpt, Except.isOk, Except.toBool]
            | cons p l2 =>
              obtain ⟨pk, lv⟩ := p
              cases l2 with
              | nil =>
                simp only [Bool.and_eq_true] at hhead
                obtain ⟨hpk, hlv⟩ := hhead
                have hpk2 := eq_of_beq hpk
                subst hpk2
                cases lv with
                | arr xs =>
                  simp [docLoop, isPrimitiveTag, getProp, isNullish, propOf,
                    lookupEntry, jsTruthyOpt, jsFalsy, Except.isOk,
                    Except.toBool]
                | str s => simp at hlv
                | num n => simp at hlv
                | bool b => simp at hlv
                | null => simp at hlv
                | undef => simp at hlv
                | date s => simp at hlv
                | obj l3 => simp at hlv
              | cons p2 l3 => simp at hhead
          | str s => simp at hhead
          | num n => simp at hhead
          | bool b => simp at hhead
          | null => simp at hhead
          | undef => simp at hhead
          | date s => simp at hhead
          | arr xs => simp at hhead
        | false =>
          simp only [ha, Bool.false_eq_true, if_false] at hhead hd1
          have hvok := IH v hhead (by omega)
          obtain ⟨dv, hdv⟩ := (except_isOk_iff _).mp hvok
          have hstep : docLoop f acc ((k, v) :: rest) =
              docLoop f (jsSet acc k dv) rest := by
            simp [docLoop, hp, hm, ha, hdv]
          rw [hstep]
          exact ih f (jsSet acc k dv) IH htail hd2

/-- Claim C9 counterexample: decoding is not total on malformed wire input;
a mapValue tag whose payload is null makes documentToJson access
null.fields, a TypeError, so the decode fails. -/
theorem claim9_decode_total_counterexample :
    documentToJson 3 (.obj [("mapValue", JSValue.null)]) =
      .error .typeError ∧
    (documentToJson 3 (.obj [("mapValue", JSValue.null)])).isOk = false := by
  have h : documentToJson 3 (.obj [("mapValue", JSValue.null)]) =
      .error .typeError := by
    simp [documentToJson, docLoop, jsFalsy, jsForIn, isPrimitiveTag, getProp,
      isNullish]
  exact ⟨h, by rw [h]; rfl⟩

/-- Claim C9 amended: decoding never fails on any input conforming to the
wire grammar (tagged values with well-shaped mapValue and arrayValue
payloads, unrecognized tags holding further conforming documents), given
call-stack fuel at least the nesting depth of the input. -/
theorem claim9_decode_total_amended : ∀ fuel v, wfDoc v = true →
    ddepth v ≤ fuel → (documentToJson fuel v).isOk = true := by
  intro fuel
  induction fuel using Nat.strong_induction_on with
  | _ fuel IHs =>
    intro v hwf hd
    cases fuel with
    | zero =>
      have := ddepth_pos v
      omega
    | succ f =>
      have IH : ∀ w, wfDoc w = true → ddepth w ≤ f →
          (documentToJson f w).isOk = true :=
        fun w hw hdw => IHs f (Nat.lt_succ_self f) w hw hdw
      cases v with
      | obj fs =>
        have hstep : documentToJson (f + 1) (.obj fs) = docLoop f [] fs := by
          simp [documentToJson, jsFalsy, jsForIn]
        rw [hstep]
        exact docLoop_wf_ok fs f [] IH hwf hd
      | str s =>
        have hs : s.isEmpty = true := by simpa [wfDoc] using hwf
        simp [documentToJson, jsFalsy, hs, Except.isOk, Except.toBool]
      | num n =>
        cases hfal : jsFalsy (.num n) with
        | true =>
          simp [documentToJson, hfal, Except.isOk, Except.toBool]
        | false =>
          simp [documentToJson, hfal, jsForIn, docLoop, Except.isOk,
            Except.toBool]
      | bool b =>
        cases hfal : jsFalsy (.bool b) with
        | true =>
          simp [documentToJson, hfal, Except.isOk, Except.toBool]
        | false =>
          simp [documentToJson, hfal, jsForIn, docLoop, Except.isOk,
            Except.toBool]
      | null => simp [documentToJson, jsFalsy, Except.isOk, Except.toBool]
      | undef => simp [documentToJson, jsFalsy, Except.isOk, Except.toBool]
      | date s =>
        simp [documentToJson, jsFalsy, jsForIn, docLoop, Except.isOk,
          Except.toBool]
      | arr xs =>
        have hx : xs = [] := by simpa [wfDoc, List.isEmpty_iff] using hwf
        subst hx
        simp [documentToJson, jsFalsy, jsForIn, indexPairs, docLoop,
          Except.isOk, Except.toBool]

/-- Claim C9 witness: a conforming document with a primitive field, a nested
map and an unrecognized tag decodes without failing. -/
theorem claim9_decode_total_witness :
    (documentToJson 5 (.obj [("name", .obj [("stringValue", .str "A")]),
      ("meta", .obj [("mapValue",
        .obj [("fields", .obj [("integerValue", .num (.fin 1))])])])])).isOk =
      true :=
  claim9_decode_total_amended 5 _
    (by simp [wfDoc, isPrimitiveTag, jsFalsy])
    (by simp [ddepth, isPrimitiveTag])

/-! ## Claim C1: the encode/decode round trip (amended part) -/

theorem rtFuelVal_obj_ge_two : ∀ fs, 2 ≤ rtFuelVal (.obj fs) := by
  intro fs
  cases fs with
  | nil => simp [rtFuelVal]
  | cons q rest =>
    obtain ⟨k, w⟩ := q
    unfold rtFuelVal
    omega

theorem rtFuelVal_pos : ∀ v, 1 ≤ rtFuelVal v := by
  intro v
  cases v with
  | obj fs => exact le_trans (by omega) (rtFuelVal_obj_ge_two fs)
  | str s => simp [rtFuelVal]
  | num n => simp [rtFuelVal]
  | bool b => simp [rtFuelVal]
  | null => simp [rtFuelVal]
  | undef => simp [rtFuelVal]
  | date s => simp [rtFuelVal]
  | arr xs => simp [rtFuelVal]

theorem docLoop_roundtrip : ∀ (fs : List (String × JSValue)) (f : Nat)
    (acc : List (String × JSValue)),
    (∀ v, roundSafe v = true → rtFuelVal v ≤ f →
      documentToJson f (.obj [encodeField v]) = .ok v) →
    roundSafe (.obj fs) = true → rtFuelVal (.obj fs) ≤ f + 2 →
    (∀ p ∈ acc, ∀ q ∈ fs, p.1 ≠ q.1) →
    docLoop f acc (encodeEntries fs) = .ok (.obj (acc ++ fs)) := by
  intro fs
  induction fs with
  | nil =>
    intro f acc _ _ _ _
    simp [encodeEntries, docLoop]
  | cons q rest ih =>
    intro f acc IH hrs hfu hfresh
    obtain ⟨k, v⟩ := q
    unfold roundSafe at hrs
    unfold rtFuelVal at hfu
    simp only [Bool.and_eq_true] at hrs
    obtain ⟨⟨⟨hwt, hnodup⟩, hv⟩, hrest⟩ := hrs
    have hwt2 : isWireTag k = false := by simpa using hwt
    obtain ⟨hp, hm, ha⟩ := isWireTag_false_parts hwt2
    have hfu1 : rtFuelVal v ≤ f := by
      have := le_trans (Nat.le_max_left _ _) hfu
      omega
    have hfu2 : rtFuelVal (.obj rest) ≤ f + 2 :=
      le_trans (Nat.le_max_right _ _) hfu
    have hdec := IH v hv hfu1
    simp only [encodeEntries]
    have hstep : docLoop f acc ((k, .obj [encodeField v]) :: encodeEntries rest) =
        docLoop f (jsSet acc k v) (encodeEntries rest) := by
      simp [docLoop, hp, hm, ha, hdec]
    rw [hstep]
    have hset : jsSet acc k v = acc ++ [(k, v)] :=
      jsSet_fresh_append acc k v (fun p hp2 => hfresh p hp2 (k, v) (by simp))
    rw [hset]
    have hfresh2 : ∀ p ∈ acc ++ [(k, v)], ∀ qq ∈ rest, p.1 ≠ qq.1 := by
      intro p hp2 qq hq
      rcases List.mem_append.mp hp2 with hin | hin
      · exact hfresh p hin qq (by simp [hq])
      · have hpk : p = (k, v) := by simpa using hin
        subst hpk
        have hqk := List.all_eq_true.mp hnodup qq hq
        have hqk2 : qq.1 ≠ k := by simpa using hqk
        exact fun hEq => hqk2 (by rw [← hEq])
    have hrec := ih f (acc ++ [(k, v)]) IH hrest hfu2 hfresh2
    rw [hrec]
    simp

theorem roundtrip_PQ : ∀ fuel,
    (∀ v, roundSafe v = true → rtFuelVal v ≤ fuel →
      documentToJson fuel (.obj [encodeField v]) = .ok v) ∧
    (∀ fs, roundSafe (.obj fs) = true → rtFuelVal (.obj fs) ≤ fuel + 1 →
      documentToJson fuel (.obj (encodeEntries fs)) = .ok (.obj fs)) := by
  intro fuel
  induction fuel using Nat.strong_induction_on with
  | _ fuel IHs =>
    constructor
    · intro v hrs hfu
      have hpos := rtFuelVal_pos v
      cases fuel with
      | zero => omega
      | succ f =>
        have h1 : documentToJson (f + 1) (.obj [encodeField v]) =
            docLoop f [] [encodeField v] := by
          simp [documentToJson, jsFalsy, jsForIn]
        rw [h1]
        cases v with
        | str s => simp [encodeField, docLoop, isPrimitiveTag]
        | bool b => simp [encodeField, docLoop, isPrimitiveTag]
        | null => simp [encodeField, docLoop, isPrimitiveTag]
        | num n =>
          have hint : numIsInteger n = true := by simpa [roundSafe] using hrs
          simp [encodeField, hint, docLoop, isPrimitiveTag]
        | arr xs =>
          have hxs : xs = [] := by
            simpa [roundSafe, List.isEmpty_iff] using hrs
          subst hxs
          simp [encodeField, encodeElems, docLoop, isPrimitiveTag, getProp,
            isNullish, propOf, lookupEntry, jsTruthyOpt, jsFalsy]
        | obj fs =>
          have hQ := (IHs f (Nat.lt_succ_self f)).2 fs hrs
            (by unfold rtFuelVal at hfu ⊢; omega)
          simp [encodeField, docLoop, isPrimitiveTag, getProp, isNullish,
            propOf, lookupEntry, fieldsOrEmpty, jsFalsy, hQ]
        | undef => simp [roundSafe] at hrs
        | date s => simp [roundSafe] at hrs
    · intro fs hrs hfu
      have hge2 := rtFuelVal_obj_ge_two fs
      cases fuel with
      | zero => omega
      | succ f =>
        have h1 : documentToJson (f + 1) (.obj (encodeEntries fs)) =
            docLoop f [] (encodeEntries fs) := by
          simp [documentToJson, jsFalsy, jsForIn]
        rw [h1]
        have hP := (IHs f (Nat.lt_succ_self f)).1
        have hL := docLoop_roundtrip fs f [] hP hrs (by omega) (by simp)
        simpa using hL

/-- Claim C1 amended: for native objects built from strings, booleans, null,
integral numbers, empty arrays and nested such objects, with unique keys
that are not wire tags, decoding the encoded document reproduces the
original object exactly (given fuel covering its nesting); objects holding
non-empty arrays are excluded, since their elements are lost on decode. -/
theorem claim1_roundtrip_amended : ∀ (fs : List (String × JSValue)) fuel,
    roundSafe (.obj fs) = true →
    rtFuelVal (.obj fs) ≤ fuel + 1 →
    jsonToDocument (.obj fs) = .obj [("fields", .obj (encodeEntries fs))] ∧
    documentToJson fuel (.obj (encodeEntries fs)) = .ok (.obj fs) := by
  intro fs fuel hrs hfu
  exact ⟨by simp [jsonToDocument, jsForIn], (roundtrip_PQ fuel).2 fs hrs hfu⟩

/-- Claim C1 witness: a representative object with a string, an integer,
null, a boolean, an empty array and a nested object round trips. -/
theorem claim1_roundtrip_amended_witness :
    jsonToDocument (.obj [("name", .str "John"), ("age", .num (.fin 30)),
      ("x", JSValue.null), ("ok", .bool true), ("tags", .arr []),
      ("address", .obj [("city", .str "Dubai")])]) =
      .obj [("fields", .obj (encodeEntries [("name", .str "John"),
        ("age", .num (.fin 30)), ("x", JSValue.null), ("ok", .bool true),
        ("tags", .arr []), ("address", .obj [("city", .str "Dubai")])]))] ∧
    documentToJson 6 (.obj (encodeEntries [("name", .str "John"),
      ("age", .num (.fin 30)), ("x", JSValue.null), ("ok", .bool true),
      ("tags", .arr []), ("address", .obj [("city", .str "Dubai")])])) =
      .ok (.obj [("name", .str "John"), ("age", .num (.fin 30)),
        ("x", JSValue.null), ("ok", .bool true), ("tags", .arr []),
        ("address", .obj [("city", .str "Dubai")])]) :=
  claim1_roundtrip_amended _ 6
    (by simp [roundSafe, isWireTag, isPrimitiveTag, numIsInteger])
    (by simp [rtFuelVal])

end FirestoreAdmin
